import Mathlib

/-!
Verification of the ImageJ Jython script `Ratio_to_absolute_pH.py` (ratio to
absolute pH conversion) against its natural-language specification.

Embedding conventions:
* Jython floats are modelled as rationals (`ℚ`); the NaN no-data sentinel is a
  distinguished constructor of `FVal`.  Python float division by zero raises
  `ZeroDivisionError`, modelled by `none` / a fatal `RunError`.
* The ImageJ collaborators (image decoding, LUT catalog, the filesystem walk,
  saving) are an explicit environment `Env`; per section 6 of the spec the save
  collaborator may fail (`PersistError`), modelled by `Env.saveOk`.
* The script's side effects (`IJ.log`, the progress bar, file opens and saves)
  are an event trace; `timed_log` timestamps are elided from the messages.
-/

set_option linter.unusedVariables false

/-- A single-channel float sample: either NaN (the no-data sentinel) or a
finite number. -/
inductive FVal where
  | nan : FVal
  | num : ℚ → FVal
deriving DecidableEq, Repr

/-- Lines 106-125: `normalize_pixel(val, lower, upper)` computes
`(val - lower) / (upper - lower)` and clamps the result to [0, 1].
The division is unguarded in the source; `upper - lower = 0` raises
`ZeroDivisionError`, modelled by `none`. -/
def normalize_pixel (val lower upper : ℚ) : Option ℚ :=
  if upper - lower = 0 then none
  else
    let norm := (val - lower) / (upper - lower)
    some (max 0 (min 1 norm))

/-- Lines 128-150: `convert_to_pH(norm_val, B3, B2, B1, B0)` evaluates the
cubic polynomial. -/
def convert_to_pH (norm_val B3 B2 B1 B0 : ℚ) : ℚ :=
  B3 * norm_val ^ 3 + B2 * norm_val ^ 2 + B1 * norm_val + B0

/-- A width by height grid of single-channel samples, stored as rows. -/
structure ImageBuffer where
  width : ℕ
  height : ℕ
  data : List (List FVal)
deriving DecidableEq, Repr

/-- An ImagePlus: title, bit depth of the processor, and the sample buffer. -/
structure Image where
  title : String
  bitDepth : ℕ
  buf : ImageBuffer
deriving DecidableEq, Repr

/-- The per-pixel body of the loop in `process_image` (lines 184-193): NaN and
exact zero map to NaN; every other sample goes through `normalize_pixel` and
`convert_to_pH`.  `none` is the uncaught `ZeroDivisionError`. -/
def processPixel (lower upper B3 B2 B1 B0 : ℚ) : FVal → Option FVal
  | .nan => some .nan
  | .num v =>
    if v = 0 then some .nan
    else (normalize_pixel v lower upper).map fun n => .num (convert_to_pH n B3 B2 B1 B0)

/-- Conversion of a whole list, aborting at the first failure (the Python
loop aborts at the first uncaught exception). -/
def mapOption {α β : Type} (f : α → Option β) : List α → Option (List β)
  | [] => some []
  | a :: t =>
    match f a with
    | none => none
    | some b =>
      match mapOption f t with
      | none => none
      | some bt => some (b :: bt)

/-- Lines 153-195: `process_image` duplicates the input processor (the input
buffer is never written; the embedding is pure, so non-mutation holds by
construction), converts every sample with the per-pixel body into a fresh
`FloatProcessor` of the same width and height, and wraps it in a new ImagePlus
titled `"pH_" + img.getTitle()`. -/
def process_image (img : Image) (lower upper B3 B2 B1 B0 : ℚ) : Option Image :=
  match mapOption (mapOption (processPixel lower upper B3 B2 B1 B0)) img.buf.data with
  | none => none
  | some rows =>
    some { title := "pH_" ++ img.title
           bitDepth := 32
           buf := { width := img.buf.width, height := img.buf.height, data := rows } }

/-- The finite (non-NaN) samples of a buffer, row-major. -/
def finiteSamples (buf : ImageBuffer) : List ℚ :=
  buf.data.flatten.filterMap fun v =>
    match v with
    | .nan => none
    | .num q => some q

/-- ImageJ's `getStatistics().mean` on a float image: the arithmetic mean of
the finite samples (spec section 6, `meanOfFinite`). -/
def meanOfFinite (buf : ImageBuffer) : ℚ :=
  (finiteSamples buf).sum / (finiteSamples buf).length

/-- All suffixes of a list, longest first, the empty suffix included. -/
def suffixes {α : Type} : List α → List (List α)
  | [] => [[]]
  | a :: t => (a :: t) :: suffixes t

/-- Glob matching for `fnmatch` patterns built from literal characters and the
wildcards `*` and `?` (`*` matches any run of characters, `?` one character;
the match is anchored at both ends).  The source only builds patterns of
shape `"*" + ext`; character classes never occur there unless the user types
them into the extension filter, which no claim exercises. -/
def globMatch : List Char → List Char → Bool
  | [], s => s.isEmpty
  | '*' :: ps, s => (suffixes s).any fun t => globMatch ps t
  | '?' :: ps, s =>
    match s with
    | [] => false
    | _ :: t => globMatch ps t
  | c :: ps, s =>
    match s with
    | [] => false
    | c' :: t => c == c' && globMatch ps t

/-- Python's `fnmatch.fnmatch(name, pat)`: both arguments go through
`os.path.normcase`, which is the identity on POSIX systems (modelled here),
and then the pattern is matched against the whole name. -/
def fnmatch (name pat : String) : Bool := globMatch pat.data name.data

/-- ASCII lowercasing of one character, as Python's `str.lower` acts on the
ASCII file names and extensions the claims exercise. -/
def charLower (c : Char) : Char :=
  if 'A' ≤ c ∧ c ≤ 'Z' then Char.ofNat (c.toNat + 32) else c

/-- Python's `str.lower`. -/
def strToLower (s : String) : String := String.mk (s.data.map charLower)

/-- Python's `str.startswith`. -/
def strStartsWith (s pre : String) : Bool := pre.data.isPrefixOf s.data

/-- Python's `os.path.join` on POSIX for a directory and a plain file name. -/
def pathJoin (a b : String) : String := a ++ "/" ++ b

/-- Python's `os.path.basename` on POSIX: the part after the last slash. -/
def basename (p : String) : String :=
  String.mk ((p.data.reverse.takeWhile (fun c => c != '/')).reverse)

/-- Lines 80-103: `getFileList(directory, extensions)`.  `walk` is the result
of `os.walk(directory)`: one `(dirpath, filenames)` entry per directory, in
filesystem order.  The source lowercases the extensions into
`filteringStrings` but then matches `filename.lower()` against `"*" + ext`
for `ext` in the original, un-lowercased `extensions` list. -/
def getFileList (walk : List (String × List String)) (extensions : List String) :
    List String :=
  let filteringStrings := extensions.map strToLower
  walk.foldl
    (fun files dir =>
      files ++
        (dir.2.filter fun filename =>
            extensions.any fun ext => fnmatch (strToLower filename) ("*" ++ ext)).map
          (pathJoin dir.1))
    []

/-- An observable side effect of the script. -/
inductive Event where
  | log : String → Event
  | progress : ℕ → ℕ → Event
  | openFile : String → Event
  | save : String → Image → Event
deriving DecidableEq, Repr

/-- An uncaught exception that aborts the script. -/
inductive RunError where
  | configError : String → RunError
  | valueError : String → RunError
  | zeroDivisionError : RunError
  | persistError : String → RunError
deriving DecidableEq, Repr

/-- The collaborator environment: `images` is what `IJ.openImage` decodes at a
path (bit depth and samples; ImageJ sets the returned ImagePlus title to the
file name), `lutCatalog` is `LutLoader.getLut` truthiness, `walk` the
filesystem, and `saveOk` whether a save to a path succeeds (spec section 6,
`saveAsTiff` may fail with `PersistError`). -/
structure Env where
  images : String → Option (ℕ × ImageBuffer)
  lutCatalog : String → Bool
  walk : String → List (String × List String)
  saveOk : String → Bool

/-- `IJ.openImage(path)`: the decoded image with its title set to the file
name, or `none`. -/
def openImage (env : Env) (path : String) : Option Image :=
  (env.images path).map fun di =>
    { title := basename path, bitDepth := di.1, buf := di.2 }

/-- The script parameters (the `#@` declarations at the top of the source). -/
structure Config where
  input_dir : String
  output_dir : String
  extension_ratio : String
  calib_mode : String
  lower_ratio : Option ℚ
  upper_ratio : Option ℚ
  lower_image : Option String
  upper_image : Option String
  B3 : ℚ
  B2 : ℚ
  B1 : ℚ
  B0 : ℚ
  lut_method : String
  pH_min : ℚ
  pH_max : ℚ

/-- Decimal rendering with six fractional digits, modelling the Python format
spec `.6f` used in the calibration info logs (the rounding direction of an
exact tie is immaterial to every claim). -/
def fmt6 (q : ℚ) : String :=
  let n : ℤ := round (q * 1000000)
  let sign := if n < 0 then "-" else ""
  let m := n.natAbs
  let fpStr := toString (m % 1000000)
  let pad := String.mk (List.replicate (6 - fpStr.length) '0')
  sign ++ toString (m / 1000000) ++ "." ++ pad ++ fpStr

/-- Lines 198-221: `get_mean_intensity(image_path)` opens the calibration
image, logs and raises `ValueError` when it cannot be opened or is not 32-bit,
and otherwise returns the mean intensity. -/
def get_mean_intensity (env : Env) (image_path : String) :
    List Event × Except RunError ℚ :=
  match openImage env image_path with
  | none =>
    ([.openFile image_path,
      .log ("Error: Cannot open calibration image: " ++ image_path)],
     .error (.valueError ("Cannot open calibration image: " ++ image_path)))
  | some img =>
    if img.bitDepth ≠ 32 then
      ([.openFile image_path,
        .log ("Error: Calibration image is not 32-bit: " ++ image_path)],
       .error (.valueError ("Calibration image is not 32-bit: " ++ image_path)))
    else
      ([.openFile image_path], .ok (meanOfFinite img.buf))

/-- Lines 229-246: the calibration block of the main code.  Returns the
resolved `(lower_ratio, upper_ratio)` bounds or the uncaught exception. -/
def resolveCalibration (env : Env) (cfg : Config) :
    List Event × Except RunError (ℚ × ℚ) :=
  if cfg.calib_mode = "From calibration images" then
    match cfg.lower_image, cfg.upper_image with
    | some lower_image, some upper_image =>
      match get_mean_intensity env lower_image with
      | (evs, .error e) => (evs, .error e)
      | (evs, .ok lower_ratio) =>
        match get_mean_intensity env upper_image with
        | (evs2, .error e) => (evs ++ evs2, .error e)
        | (evs2, .ok upper_ratio) =>
          (evs ++ evs2 ++
            [.log "",
             .log ("Info: Calibration image (lower pH) -> mean ratio: " ++
               fmt6 lower_ratio),
             .log ("Info: Calibration image (upper pH) -> mean ratio: " ++
               fmt6 upper_ratio)],
           .ok (lower_ratio, upper_ratio))
    | _, _ =>
      ([.log "Error: Both calibration images must be provided."],
       .error (.configError
         "Both calibration images (lower pH and upper pH) must be selected for image-based calibration."))
  else if cfg.calib_mode = "Manual" then
    match cfg.lower_ratio, cfg.upper_ratio with
    | some lower_ratio, some upper_ratio => ([], .ok (lower_ratio, upper_ratio))
    | _, _ =>
      ([.log "Error: Both manual calibration values must be entered."],
       .error (.configError
         "Manual calibration mode requires both lower and upper values."))
  else
    ([.log "Invalid calibration mode selected."],
     .error (.configError "Invalid calibration mode."))

/-- Lines 276-286: the LUT fallback block.  `lut_method` is a script-level
variable: the returned name replaces it for the rest of the run. -/
def resolveLut (env : Env) (lut_method : String) : List Event × String :=
  if env.lutCatalog lut_method then ([], lut_method)
  else if env.lutCatalog "Green Fire Blue" then
    ([.log ("LUT '" ++ lut_method ++ "' does not exist. Using default: 'Green Fire Blue'")],
     "Green Fire Blue")
  else
    ([.log ("LUT '" ++ lut_method ++ "' does not exist. Using default: 'Fire'")],
     "Fire")

/-- Lines 257-295: one iteration of the batch loop.  Returns the iteration's
events, the (possibly reassigned) `lut_method`, and the uncaught exception if
one escapes the iteration.  `progress_bar(i, total_files, 1, ...)` runs first,
then the open/validate/transform/LUT/save steps; open and validate failures
log and `continue`. -/
def processFile (env : Env) (cfg : Config) (lower_ratio upper_ratio : ℚ)
    (lut_method : String) (i total : ℕ) (file : String) :
    List Event × String × Option RunError :=
  match openImage env file with
  | none =>
    ([.progress i total, .openFile file,
      .log ("Info: Could not open image: " ++ basename file)],
     lut_method, none)
  | some img =>
    if img.bitDepth ≠ 32 then
      ([.progress i total, .openFile file,
        .log ("Info: Image is not 32-bit: " ++ basename file)],
       lut_method, none)
    else
      match process_image img lower_ratio upper_ratio cfg.B3 cfg.B2 cfg.B1 cfg.B0 with
      | none => ([.progress i total, .openFile file], lut_method, some .zeroDivisionError)
      | some pH_img =>
        let lutRes := resolveLut env lut_method
        let out_path := pathJoin cfg.output_dir pH_img.title
        if env.saveOk out_path then
          ([.progress i total, .openFile file] ++ lutRes.1 ++ [.save out_path pH_img],
           lutRes.2, none)
        else
          ([.progress i total, .openFile file] ++ lutRes.1, lutRes.2,
           some (.persistError out_path))

/-- The batch loop over the discovered files (`for i, file in
enumerate(files, 1)`), threading the `lut_method` variable; a fatal error
aborts the remaining files. -/
def runBatch (env : Env) (cfg : Config) (lower_ratio upper_ratio : ℚ) :
    String → ℕ → ℕ → List String → List Event × Option RunError
  | _, _, _, [] => ([], none)
  | lut_method, i, total, file :: rest =>
    match processFile env cfg lower_ratio upper_ratio lut_method i total file with
    | (evs, _, some e) => (evs, some e)
    | (evs, lut2, none) =>
      let tail := runBatch env cfg lower_ratio upper_ratio lut2 (i + 1) total rest
      (evs ++ tail.1, tail.2)

/-- The outcome of a run: the event trace and the uncaught exception, if any. -/
structure RunResult where
  events : List Event
  error : Option RunError
deriving DecidableEq, Repr

/-- Lines 252-253: the discovered batch files. -/
def theFiles (env : Env) (cfg : Config) : List String :=
  getFileList (env.walk cfg.input_dir) [cfg.extension_ratio]

/-- Lines 225-298: the main code.  Clears the log, resolves calibration (an
error there aborts before discovery), discovers the files, runs the batch
loop, and logs completion only when no exception escaped. -/
def mainScript (env : Env) (cfg : Config) : RunResult :=
  let startup : List Event := [.log "\\Clear", .log "Script starting"]
  match resolveCalibration env cfg with
  | (evs, .error e) => { events := startup ++ evs, error := some e }
  | (evs, .ok bounds) =>
    let files := theFiles env cfg
    let total := files.length
    match runBatch env cfg bounds.1 bounds.2 cfg.lut_method 1 total files with
    | (evs2, some e) => { events := startup ++ evs ++ evs2, error := some e }
    | (evs2, none) =>
      { events := startup ++ evs ++ evs2 ++ [.log "Script finished !"],
        error := none }

/-- The output paths of the save events of a trace, in order. -/
def savedPaths (evs : List Event) : List String :=
  evs.filterMap fun e =>
    match e with
    | .save p _ => some p
    | _ => none

/-- Whether an event is one of the two per-file skip logs of the batch loop. -/
def isSkipLog : Event → Bool
  | .log m =>
    strStartsWith m "Info: Could not open image: " ||
      strStartsWith m "Info: Image is not 32-bit: "
  | _ => false

/-- Files processed to completion: one save event each. -/
def processedCount (evs : List Event) : ℕ := (savedPaths evs).length

/-- Files skipped: one skip log each. -/
def skippedCount (evs : List Event) : ℕ := (evs.filter isSkipLog).length

/-- One step of replaying the saves of a trace against one output path. -/
def saveStep (path : String) (acc : Option Image) : Event → Option Image
  | .save p img => if p = path then some img else acc
  | _ => acc

/-- The file the output directory ends up holding at `path`: the last save to
`path` wins. -/
def lastSave (evs : List Event) (path : String) : Option Image :=
  evs.foldl (saveStep path) none

/-- Modelled from the spec (section 4.3): the per-sample mapping the spec
states for `transform` — NaN and exact zero map to the no-data sentinel,
every other sample to `convertToPH(normalize(sample, lower, upper), coeffs)`.
Stated separately from the source's `processPixel` so the two can be
compared. -/
def pixelSpec (lower upper B3 B2 B1 B0 : ℚ) : FVal → FVal
  | .nan => .nan
  | .num v =>
    if v = 0 then .nan
    else .num (convert_to_pH (max 0 (min 1 ((v - lower) / (upper - lower)))) B3 B2 B1 B0)

/-- Modelled from the spec (claim wording): a calibration reference image that
cannot be opened or is not 32-bit. -/
def badCalibImage (env : Env) (p : String) : Prop :=
  env.images p = none ∨ ∃ d b, env.images p = some (d, b) ∧ d ≠ 32

/-- Modelled from the spec (claim wording): the exact conditions under which
calibration resolution is said to fail fatally. -/
def calibFails (env : Env) (cfg : Config) : Prop :=
  (cfg.calib_mode = "Manual" ∧ (cfg.lower_ratio = none ∨ cfg.upper_ratio = none))
  ∨ (cfg.calib_mode = "From calibration images" ∧
      (cfg.lower_image = none ∨ cfg.upper_image = none
        ∨ (∃ p, cfg.lower_image = some p ∧ badCalibImage env p)
        ∨ (∃ p, cfg.upper_image = some p ∧ badCalibImage env p)))
  ∨ (cfg.calib_mode ≠ "Manual" ∧ cfg.calib_mode ≠ "From calibration images")

/-- Whether an `Except` is an error. -/
def isErr {ε α : Type} : Except ε α → Bool
  | .error _ => true
  | .ok _ => false


/-- Converting a list with a function that succeeds on every element succeeds
on the whole list. -/
theorem mapOption_some_of_forall {α β : Type} (f : α → Option β) (g : α → β) :
    ∀ l : List α, (∀ a ∈ l, f a = some (g a)) → mapOption f l = some (l.map g) := by
  intro l h
  induction l with
  | nil => rfl
  | cons a t ih =>
    simp [mapOption, h a (List.mem_cons_self a t),
      ih fun x hx => h x (List.mem_cons_of_mem a hx)]

/-- Converting a list with a function that fails on one of its members fails
on the whole list. -/
theorem mapOption_eq_none_of_mem {α β : Type} (f : α → Option β) (a : α) :
    ∀ l : List α, a ∈ l → f a = none → mapOption f l = none := by
  intro l
  induction l with
  | nil => intro h; cases h
  | cons b t ih =>
    intro hmem hfa
    cases hfb : f b with
    | none => simp [mapOption, hfb]
    | some v =>
      rcases List.mem_cons.mp hmem with h | h
      · rw [h] at hfa; rw [hfa] at hfb; cases hfb
      · simp [mapOption, hfb, ih h hfa]

/-- With distinct bounds the per-pixel body never hits the division by zero
and agrees with the spec's per-sample mapping. -/
theorem processPixel_eq_pixelSpec (lower upper B3 B2 B1 B0 : ℚ)
    (h : lower ≠ upper) (v : FVal) :
    processPixel lower upper B3 B2 B1 B0 v =
      some (pixelSpec lower upper B3 B2 B1 B0 v) := by
  have hne : upper - lower ≠ 0 := sub_ne_zero.mpr (Ne.symm h)
  cases v with
  | nan => rfl
  | num q =>
    by_cases hq : q = 0 <;>
      simp [processPixel, pixelSpec, normalize_pixel, hne, hq]

/-- With distinct bounds, `process_image` succeeds and equals the spec's
per-sample mapping applied to every sample of the buffer. -/
theorem process_image_eq_map (img : Image) (lower upper B3 B2 B1 B0 : ℚ)
    (h : lower ≠ upper) :
    process_image img lower upper B3 B2 B1 B0 =
      some { title := "pH_" ++ img.title
             bitDepth := 32
             buf := { width := img.buf.width, height := img.buf.height,
                      data := img.buf.data.map
                        (List.map (pixelSpec lower upper B3 B2 B1 B0)) } } := by
  have hall :
      mapOption (mapOption (processPixel lower upper B3 B2 B1 B0)) img.buf.data =
        some (img.buf.data.map (List.map (pixelSpec lower upper B3 B2 B1 B0))) :=
    mapOption_some_of_forall _ _ _ fun row _ =>
      mapOption_some_of_forall _ _ row fun a _ =>
        processPixel_eq_pixelSpec _ _ _ _ _ _ h a
  simp [process_image, hall]

/-- Whenever `process_image` succeeds, the returned image is titled
`"pH_" + img.getTitle()` and keeps the input's width and height. -/
theorem process_image_title (img : Image) (lower upper B3 B2 B1 B0 : ℚ)
    (pH : Image) (h : process_image img lower upper B3 B2 B1 B0 = some pH) :
    pH.title = "pH_" ++ img.title ∧ pH.buf.width = img.buf.width ∧
      pH.buf.height = img.buf.height := by
  unfold process_image at h
  split at h
  · cases h
  · injection h with h
    rw [← h]
    exact ⟨rfl, rfl, rfl⟩

/-- C1: for every input buffer and bounds with `lower ≠ upper`,
`process_image` returns a new image of the same width and height (the input,
duplicated before writing, is untouched — the embedding is pure), mapping
every NaN or exactly-zero sample to the NaN sentinel and every other sample
to `convert_to_pH` of its normalized value, a finite (`FVal.num`) value. -/
theorem process_image_transform_spec (img : Image) (lower upper B3 B2 B1 B0 : ℚ)
    (h : lower ≠ upper) :
    process_image img lower upper B3 B2 B1 B0 =
      some { title := "pH_" ++ img.title
             bitDepth := 32
             buf := { width := img.buf.width, height := img.buf.height,
                      data := img.buf.data.map
                        (List.map (pixelSpec lower upper B3 B2 B1 B0)) } }
    ∧ (∀ v : FVal, v = .nan ∨ v = .num 0 →
        pixelSpec lower upper B3 B2 B1 B0 v = .nan)
    ∧ (∀ q : ℚ, q ≠ 0 → ∃ n : ℚ,
        normalize_pixel q lower upper = some n ∧
        pixelSpec lower upper B3 B2 B1 B0 (.num q) =
          .num (convert_to_pH n B3 B2 B1 B0)) := by
  have hne : upper - lower ≠ 0 := sub_ne_zero.mpr (Ne.symm h)
  refine ⟨process_image_eq_map img lower upper B3 B2 B1 B0 h, ?_, ?_⟩
  · rintro v (rfl | rfl) <;> simp [pixelSpec]
  · intro q hq
    refine ⟨max 0 (min 1 ((q - lower) / (upper - lower))), ?_, ?_⟩
    · simp [normalize_pixel, hne]
    · simp [pixelSpec, hq]

/-- Witness for C1 at a concrete one-pixel image and the identity calibration
of the spec's example: sample 150 with bounds 100, 200 and coefficients
(0, 0, 1, 0) maps to 1/2. -/
theorem process_image_transform_spec_witness :
    process_image { title := "img.tif", bitDepth := 32,
                    buf := { width := 1, height := 1, data := [[.num 150]] } }
        100 200 0 0 1 0 =
      some { title := "pH_img.tif", bitDepth := 32,
             buf := { width := 1, height := 1, data := [[.num (1 / 2)]] } } := by
  have h := (process_image_transform_spec
    { title := "img.tif", bitDepth := 32,
      buf := { width := 1, height := 1, data := [[.num 150]] } }
    100 200 0 0 1 0 (by norm_num)).1
  rw [h]
  simp [pixelSpec, convert_to_pH, min_def, max_def]
  norm_num

/-- C2: with `lower ≠ upper`, `normalize_pixel` is `(v - l)/(u - l)` clamped
to [0, 1]; the result lies in [0, 1], `normalize_pixel l l u = 0`, and
`normalize_pixel u l u = 1` when `u > l`. -/
theorem normalize_pixel_spec (v l u : ℚ) (h : l ≠ u) :
    normalize_pixel v l u = some (max 0 (min 1 ((v - l) / (u - l))))
    ∧ (∀ q : ℚ, normalize_pixel v l u = some q → 0 ≤ q ∧ q ≤ 1)
    ∧ normalize_pixel l l u = some 0
    ∧ (l < u → normalize_pixel u l u = some 1) := by
  have hne : u - l ≠ 0 := sub_ne_zero.mpr (Ne.symm h)
  refine ⟨by simp [normalize_pixel, hne], ?_, ?_, ?_⟩
  · intro q hq
    rw [normalize_pixel, if_neg hne] at hq
    have hq' : max 0 (min 1 ((v - l) / (u - l))) = q := Option.some.inj hq
    refine ⟨?_, ?_⟩
    · rw [← hq']; exact le_max_left _ _
    · rw [← hq']; exact max_le (by norm_num) (min_le_left _ _)
  · simp [normalize_pixel, hne]
  · intro _
    simp [normalize_pixel, hne, div_self hne]

/-- Witness for C2 at v = 5, l = 0, u = 10: the normalized value is the
clamped ratio and the endpoint values map to 0 and 1. -/
theorem normalize_pixel_spec_witness :
    normalize_pixel 5 0 10 = some (max 0 (min 1 ((5 - 0) / (10 - 0))))
    ∧ normalize_pixel 0 0 10 = some 0
    ∧ normalize_pixel 10 0 10 = some 1 := by
  have h := normalize_pixel_spec 5 0 10 (by norm_num)
  exact ⟨h.1, h.2.2.1, h.2.2.2 (by norm_num)⟩

/-- C8: `normalize_pixel` computes `(val - lower)/(upper - lower)` with no
guard against equal bounds, and no caller guards it either: with equal bounds
every non-NaN, non-zero sample reaches the division by zero — the per-pixel
computation, `process_image` on any buffer holding such a sample, and the
batch iteration on any 32-bit image holding one all abort with the uncaught
`ZeroDivisionError`. -/
theorem division_by_zero_unguarded (v l : ℚ) (hv : v ≠ 0) :
    normalize_pixel v l l = none
    ∧ (∀ B3 B2 B1 B0 : ℚ, processPixel l l B3 B2 B1 B0 (.num v) = none)
    ∧ (∀ (img : Image) (B3 B2 B1 B0 : ℚ),
        (∃ row ∈ img.buf.data, FVal.num v ∈ row) →
        process_image img l l B3 B2 B1 B0 = none)
    ∧ (∀ (env : Env) (cfg : Config) (lut : String) (i total : ℕ) (file : String)
        (img : Image), openImage env file = some img → img.bitDepth = 32 →
        (∃ row ∈ img.buf.data, FVal.num v ∈ row) →
        (processFile env cfg l l lut i total file).2.2 =
          some RunError.zeroDivisionError) := by
  have h1 : normalize_pixel v l l = none := by simp [normalize_pixel]
  have h2 : ∀ B3 B2 B1 B0 : ℚ, processPixel l l B3 B2 B1 B0 (.num v) = none := by
    intro B3 B2 B1 B0
    simp [processPixel, hv, h1]
  have h3 : ∀ (img : Image) (B3 B2 B1 B0 : ℚ),
      (∃ row ∈ img.buf.data, FVal.num v ∈ row) →
      process_image img l l B3 B2 B1 B0 = none := by
    intro img B3 B2 B1 B0 hex
    obtain ⟨row, hrow, hmem⟩ := hex
    have hinner : mapOption (processPixel l l B3 B2 B1 B0) row = none :=
      mapOption_eq_none_of_mem _ _ row hmem (h2 B3 B2 B1 B0)
    have houter :
        mapOption (mapOption (processPixel l l B3 B2 B1 B0)) img.buf.data = none :=
      mapOption_eq_none_of_mem _ _ img.buf.data hrow hinner
    simp [process_image, houter]
  refine ⟨h1, h2, h3, ?_⟩
  intro env cfg lut i total file img hopen hbit hex
  simp [processFile, hopen, hbit, h3 img cfg.B3 cfg.B2 cfg.B1 cfg.B0 hex]

/-- Witness for C8 at sample 150 and equal bounds 100: the division by zero
is reached both in `normalize_pixel` and through `process_image`. -/
theorem division_by_zero_unguarded_witness :
    normalize_pixel 150 100 100 = none
    ∧ process_image ⟨"img.tif", 32, ⟨1, 1, [[FVal.num 150]]⟩⟩ 100 100 0 0 1 0 =
        none := by
  have h := division_by_zero_unguarded 150 100 (by norm_num)
  exact ⟨h.1, h.2.2.1 _ 0 0 1 0 ⟨[FVal.num 150], by simp, by simp⟩⟩

/-- An environment with no images, no LUTs, an empty filesystem and saves
that succeed; used to instantiate witnesses. -/
def envEmpty : Env :=
  { images := fun _ => none
    lutCatalog := fun _ => false
    walk := fun _ => []
    saveOk := fun _ => true }

/-- C7: LUT resolution never raises: when the requested name is in the
catalog it is used unchanged; when absent, "Green Fire Blue" is substituted
and the substitution logged if it exists, and otherwise "Fire" is substituted
and the substitution logged; and the batch iteration's only fatal outcomes
are the division by zero and the save failure — never the LUT step. -/
theorem lut_fallback_spec (env : Env) (lut : String) :
    (env.lutCatalog lut = true → resolveLut env lut = ([], lut))
    ∧ (env.lutCatalog lut = false → env.lutCatalog "Green Fire Blue" = true →
        resolveLut env lut =
          ([.log ("LUT '" ++ lut ++ "' does not exist. Using default: 'Green Fire Blue'")],
           "Green Fire Blue"))
    ∧ (env.lutCatalog lut = false → env.lutCatalog "Green Fire Blue" = false →
        resolveLut env lut =
          ([.log ("LUT '" ++ lut ++ "' does not exist. Using default: 'Fire'")],
           "Fire"))
    ∧ (∀ (cfg : Config) (lower upper : ℚ) (i total : ℕ) (file : String),
        (processFile env cfg lower upper lut i total file).2.2 = none
        ∨ (processFile env cfg lower upper lut i total file).2.2 =
            some RunError.zeroDivisionError
        ∨ ∃ out, (processFile env cfg lower upper lut i total file).2.2 =
            some (RunError.persistError out)) := by
  refine ⟨?_, ?_, ?_, ?_⟩
  · intro h1; simp [resolveLut, h1]
  · intro h1 h2; simp [resolveLut, h1, h2]
  · intro h1 h2; simp [resolveLut, h1, h2]
  · intro cfg lower upper i total file
    cases hopen : openImage env file with
    | none => left; simp [processFile, hopen]
    | some img =>
      by_cases hbit : img.bitDepth = 32
      · cases hproc : process_image img lower upper cfg.B3 cfg.B2 cfg.B1 cfg.B0 with
        | none => right; left; simp [processFile, hopen, hbit, hproc]
        | some pH =>
          cases hsave : env.saveOk (pathJoin cfg.output_dir pH.title) with
          | true => left; simp [processFile, hopen, hbit, hproc, hsave]
          | false =>
            right; right
            exact ⟨pathJoin cfg.output_dir pH.title,
              by simp [processFile, hopen, hbit, hproc, hsave]⟩
      · left; simp [processFile, hopen, hbit]

/-- Witness for C7: with an empty catalog, requesting "Rainbow RGB" falls
back to "Fire" with a logged substitution. -/
theorem lut_fallback_spec_witness :
    resolveLut envEmpty "Rainbow RGB" =
      ([Event.log ("LUT '" ++ "Rainbow RGB" ++ "' does not exist. Using default: 'Fire'")],
       "Fire") :=
  (lut_fallback_spec envEmpty "Rainbow RGB").2.2.1 rfl rfl

/-- The head of an appended string is the head of its nonempty first part. -/
theorem strHead_append (p s : String) (hp : p.data ≠ []) :
    (p ++ s).data.head? = p.data.head? := by
  rw [String.data_append]
  cases hc : p.data with
  | nil => exact absurd hc hp
  | cons c cs => simp [hc]

/-- Two strings whose first characters differ are different, whatever the
first one's tail. -/
theorem append_ne_of_head (p s t : String) (hp : p.data ≠ [])
    (hh : p.data.head? ≠ t.data.head?) : p ++ s ≠ t := by
  intro he
  exact hh (by rw [← he, strHead_append p s hp])

/-- The two-append version of `append_ne_of_head`. -/
theorem append2_ne_of_head (p s t u : String) (hp : p.data ≠ [])
    (hh : p.data.head? ≠ u.data.head?) : (p ++ s) ++ t ≠ u := by
  have hps : (p ++ s).data ≠ [] := by
    rw [String.data_append]
    intro h
    exact hp (List.append_eq_nil.mp h).1
  apply append_ne_of_head _ _ _ hps
  rw [strHead_append p s hp]
  exact hh

/-- `get_mean_intensity` fails exactly on a calibration image that cannot be
opened or is not 32-bit. -/
theorem get_mean_intensity_isErr (env : Env) (p : String) :
    isErr (get_mean_intensity env p).2 = true ↔ badCalibImage env p := by
  unfold get_mean_intensity badCalibImage
  cases hi : env.images p with
  | none => simp [openImage, hi, isErr]
  | some db =>
    obtain ⟨d, b⟩ := db
    by_cases hb : d = 32
    · simp [openImage, hi, isErr, hb]
    · simp [openImage, hi, isErr, hb]

/-- Every event of `get_mean_intensity` is the open of its path or a log that
is not the completion message. -/
theorem get_mean_intensity_events (env : Env) (p : String) :
    ∀ ev ∈ (get_mean_intensity env p).1,
      ev = Event.openFile p ∨ ∃ m, ev = Event.log m ∧ m ≠ "Script finished !" := by
  intro ev hev
  unfold get_mean_intensity at hev
  cases ho : openImage env p with
  | none =>
    rw [ho] at hev
    simp at hev
    rcases hev with h | h
    · exact Or.inl h
    · exact Or.inr ⟨_, h, append_ne_of_head _ _ _ (by decide) (by decide)⟩
  | some img =>
    rw [ho] at hev
    by_cases hb : img.bitDepth = 32
    · simp [hb] at hev
      exact Or.inl hev
    · simp [hb] at hev
      rcases hev with h | h
      · exact Or.inl h
      · exact Or.inr ⟨_, h, append_ne_of_head _ _ _ (by decide) (by decide)⟩

/-- Every event of the LUT fallback block is a log that is not the completion
message. -/
theorem resolveLut_events (env : Env) (lut : String) :
    ∀ ev ∈ (resolveLut env lut).1,
      ∃ m, ev = Event.log m ∧ m ≠ "Script finished !" := by
  intro ev hev
  unfold resolveLut at hev
  by_cases h1 : env.lutCatalog lut
  · simp [h1] at hev
  · by_cases h2 : env.lutCatalog "Green Fire Blue"
    · simp [h1, h2] at hev
      exact ⟨_, hev, append2_ne_of_head _ _ _ _ (by decide) (by decide)⟩
    · simp [h1, h2] at hev
      exact ⟨_, hev, append2_ne_of_head _ _ _ _ (by decide) (by decide)⟩

/-- Every event of the calibration block is the open of one of the two
calibration image paths or a log that is not the completion message. -/
theorem resolveCalibration_events_shape (env : Env) (cfg : Config) :
    ∀ ev ∈ (resolveCalibration env cfg).1,
      (∃ p, ev = Event.openFile p ∧
        (cfg.lower_image = some p ∨ cfg.upper_image = some p))
      ∨ ∃ m, ev = Event.log m ∧ m ≠ "Script finished !" := by
  intro ev hev
  unfold resolveCalibration at hev
  by_cases h1 : cfg.calib_mode = "From calibration images"
  · rw [if_pos h1] at hev
    cases hl : cfg.lower_image with
    | none =>
      rw [hl] at hev
      simp at hev
      exact Or.inr ⟨_, hev, by decide⟩
    | some lp =>
      cases hu : cfg.upper_image with
      | none =>
        rw [hl, hu] at hev
        simp at hev
        exact Or.inr ⟨_, hev, by decide⟩
      | some up =>
        rw [hl, hu] at hev
        simp only [] at hev
        have hlow := get_mean_intensity_events env lp
        have hup := get_mean_intensity_events env up
        cases hg1 : get_mean_intensity env lp with
        | mk evs1 r1 =>
          rw [hg1] at hev hlow
          cases r1 with
          | error e =>
            simp at hev
            rcases hlow ev hev with h | h
            · exact Or.inl ⟨lp, h, Or.inl rfl⟩
            · exact Or.inr h
          | ok v1 =>
            cases hg2 : get_mean_intensity env up with
            | mk evs2 r2 =>
              rw [hg2] at hev hup
              cases r2 with
              | error e =>
                simp at hev
                rcases hev with h | h
                · rcases hlow ev h with h' | h'
                  · exact Or.inl ⟨lp, h', Or.inl rfl⟩
                  · exact Or.inr h'
                · rcases hup ev h with h' | h'
                  · exact Or.inl ⟨up, h', Or.inr rfl⟩
                  · exact Or.inr h'
              | ok v2 =>
                simp at hev
                rcases hev with h | h | h | h | h
                · rcases hlow ev h with h' | h'
                  · exact Or.inl ⟨lp, h', Or.inl rfl⟩
                  · exact Or.inr h'
                · rcases hup ev h with h' | h'
                  · exact Or.inl ⟨up, h', Or.inr rfl⟩
                  · exact Or.inr h'
                · exact Or.inr ⟨_, h, by decide⟩
                · exact Or.inr ⟨_, h, append_ne_of_head _ _ _ (by decide) (by decide)⟩
                · exact Or.inr ⟨_, h, append_ne_of_head _ _ _ (by decide) (by decide)⟩
  · rw [if_neg h1] at hev
    by_cases h2 : cfg.calib_mode = "Manual"
    · rw [if_pos h2] at hev
      cases hl : cfg.lower_ratio with
      | none =>
        rw [hl] at hev
        simp at hev
        exact Or.inr ⟨_, hev, by decide⟩
      | some lv =>
        cases hu : cfg.upper_ratio with
        | none =>
          rw [hl, hu] at hev
          simp at hev
          exact Or.inr ⟨_, hev, by decide⟩
        | some uv =>
          rw [hl, hu] at hev
          simp at hev
    · rw [if_neg h2] at hev
      simp at hev
      exact Or.inr ⟨_, hev, by decide⟩

/-- Every event of one batch iteration is the progress report, the open of its
file, a save, or a log that is not the completion message. -/
theorem processFile_events_shape (env : Env) (cfg : Config)
    (lower upper : ℚ) (lut : String) (i total : ℕ) (file : String) :
    ∀ ev ∈ (processFile env cfg lower upper lut i total file).1,
      ev = Event.progress i total ∨ ev = Event.openFile file
      ∨ (∃ p im, ev = Event.save p im)
      ∨ ∃ m, ev = Event.log m ∧ m ≠ "Script finished !" := by
  intro ev hev
  unfold processFile at hev
  cases ho : openImage env file with
  | none =>
    rw [ho] at hev
    simp at hev
    rcases hev with h | h | h
    · exact Or.inl h
    · exact Or.inr (Or.inl h)
    · exact Or.inr (Or.inr (Or.inr
        ⟨_, h, append_ne_of_head _ _ _ (by decide) (by decide)⟩))
  | some img =>
    rw [ho] at hev
    by_cases hb : img.bitDepth = 32
    · simp only [hb] at hev
      cases hp : process_image img lower upper cfg.B3 cfg.B2 cfg.B1 cfg.B0 with
      | none =>
        rw [hp] at hev
        simp at hev
        rcases hev with h | h
        · exact Or.inl h
        · exact Or.inr (Or.inl h)
      | some pH =>
        rw [hp] at hev
        have hlut := resolveLut_events env lut
        cases hs : env.saveOk (pathJoin cfg.output_dir pH.title) with
        | true =>
          simp [hs] at hev
          rcases hev with h | h | h | h
          · exact Or.inl h
          · exact Or.inr (Or.inl h)
          · rcases hlut ev h with ⟨m, hm, hne⟩
            exact Or.inr (Or.inr (Or.inr ⟨m, hm, hne⟩))
          · exact Or.inr (Or.inr (Or.inl ⟨_, _, h⟩))
        | false =>
          simp [hs] at hev
          rcases hev with h | h | h
          · exact Or.inl h
          · exact Or.inr (Or.inl h)
          · rcases hlut ev h with ⟨m, hm, hne⟩
            exact Or.inr (Or.inr (Or.inr ⟨m, hm, hne⟩))
    · simp [hb] at hev
      rcases hev with h | h | h
      · exact Or.inl h
      · exact Or.inr (Or.inl h)
      · exact Or.inr (Or.inr (Or.inr
          ⟨_, h, append_ne_of_head _ _ _ (by decide) (by decide)⟩))

/-- No event of the batch loop is the completion log. -/
theorem runBatch_no_finished (env : Env) (cfg : Config) (lower upper : ℚ) :
    ∀ (files : List String) (lut : String) (i total : ℕ),
      ∀ ev ∈ (runBatch env cfg lower upper lut i total files).1,
        ev ≠ Event.log "Script finished !" := by
  intro files
  induction files with
  | nil => intro lut i total ev hev; simp [runBatch] at hev
  | cons f rest ih =>
    intro lut i total ev hev
    have hshape := processFile_events_shape env cfg lower upper lut i total f
    cases hpf : processFile env cfg lower upper lut i total f with
    | mk evs lutErr =>
      obtain ⟨lut2, err⟩ := lutErr
      rw [hpf] at hshape
      cases err with
      | some e =>
        rw [runBatch, hpf] at hev
        simp at hev
        rcases hshape ev hev with h | h | ⟨p, im, h⟩ | ⟨m, h, hm⟩
        · subst h; simp
        · subst h; simp
        · subst h; simp
        · subst h; simp [hm]
      | none =>
        rw [runBatch, hpf] at hev
        simp at hev
        rcases hev with h | h
        · rcases hshape ev h with h' | h' | ⟨p, im, h'⟩ | ⟨m, h', hm⟩
          · subst h'; simp
          · subst h'; simp
          · subst h'; simp
          · subst h'; simp [hm]
        · exact ih lut2 (i + 1) total ev h

/-- After a calibration error, the run is exactly the startup logs followed by
the calibration block's events and the calibration error. -/
theorem mainScript_calib_error (env : Env) (cfg : Config) (e : RunError)
    (h : (resolveCalibration env cfg).2 = Except.error e) :
    mainScript env cfg =
      ⟨[Event.log "\\Clear", Event.log "Script starting"] ++
        (resolveCalibration env cfg).1, some e⟩ := by
  unfold mainScript
  cases hrc : resolveCalibration env cfg with
  | mk evs r =>
    rw [hrc] at h
    simp at h
    subst h
    simp [hrc]

/-- When the script aborts with an uncaught exception, the completion message
is never logged. -/
theorem mainScript_finished_not_logged (env : Env) (cfg : Config)
    (h : (mainScript env cfg).error ≠ none) :
    Event.log "Script finished !" ∉ (mainScript env cfg).events := by
  intro hmem
  unfold mainScript at h hmem
  cases hrc : resolveCalibration env cfg with
  | mk evs r =>
    rw [hrc] at h hmem
    cases r with
    | error e =>
      simp at hmem
      rcases resolveCalibration_events_shape env cfg _
        (by rw [hrc]; exact hmem) with ⟨p, hp, _⟩ | ⟨m, hm, hne⟩
      · simp at hp
      · injection hm with hm'
        exact hne hm'.symm
    | ok bounds =>
      simp only [] at h hmem
      cases hrb : runBatch env cfg bounds.1 bounds.2 cfg.lut_method 1
          (theFiles env cfg).length (theFiles env cfg) with
      | mk evs2 r2 =>
        rw [hrb] at h hmem
        cases r2 with
        | none => simp at h
        | some e =>
          simp at hmem
          rcases hmem with h1 | h1
          · rcases resolveCalibration_events_shape env cfg _
              (by rw [hrc]; exact h1) with ⟨p, hp, _⟩ | ⟨m, hm, hne⟩
            · simp at hp
            · injection hm with hm'
              exact hne hm'.symm
          · exact runBatch_no_finished env cfg bounds.1 bounds.2
              (theFiles env cfg) cfg.lut_method 1 (theFiles env cfg).length _
              (by rw [hrb]; exact h1) rfl

/-- The calibration block fails exactly under the conditions of `calibFails`. -/
theorem resolveCalibration_isErr_iff (env : Env) (cfg : Config) :
    isErr (resolveCalibration env cfg).2 = true ↔ calibFails env cfg := by
  unfold resolveCalibration calibFails
  by_cases h1 : cfg.calib_mode = "From calibration images"
  · have h1' : ¬cfg.calib_mode = "Manual" := by rw [h1]; decide
    rw [if_pos h1]
    cases hl : cfg.lower_image with
    | none =>
      cases hu : cfg.upper_image with
      | none =>
        exact ⟨fun _ => Or.inr (Or.inl ⟨h1, Or.inl rfl⟩), fun _ => rfl⟩
      | some up =>
        exact ⟨fun _ => Or.inr (Or.inl ⟨h1, Or.inl rfl⟩), fun _ => rfl⟩
    | some lp =>
      cases hu : cfg.upper_image with
      | none =>
        exact ⟨fun _ => Or.inr (Or.inl ⟨h1, Or.inr (Or.inl rfl)⟩), fun _ => rfl⟩
      | some up =>
        simp only []
        cases hg1 : get_mean_intensity env lp with
        | mk evs1 r1 =>
          have hb1 := get_mean_intensity_isErr env lp
          rw [hg1] at hb1
          cases r1 with
          | error e =>
            simp [isErr] at hb1
            exact ⟨fun _ =>
              Or.inr (Or.inl ⟨h1, Or.inr (Or.inr (Or.inl ⟨lp, rfl, hb1⟩))⟩),
              fun _ => rfl⟩
          | ok v1 =>
            simp [isErr] at hb1
            cases hg2 : get_mean_intensity env up with
            | mk evs2 r2 =>
              have hb2 := get_mean_intensity_isErr env up
              rw [hg2] at hb2
              cases r2 with
              | error e =>
                simp [isErr] at hb2
                exact ⟨fun _ =>
                  Or.inr (Or.inl ⟨h1, Or.inr (Or.inr (Or.inr ⟨up, rfl, hb2⟩))⟩),
                  fun _ => rfl⟩
              | ok v2 =>
                simp [isErr] at hb2
                constructor
                · intro hcontra
                  simp [isErr] at hcontra
                · rintro (⟨hm, _⟩ | ⟨_, hor⟩ | ⟨_, hm2⟩)
                  · exact absurd hm h1'
                  · rcases hor with h | h | ⟨p, hp, hbad⟩ | ⟨p, hp, hbad⟩
                    · cases h
                    · cases h
                    · injection hp with hp'
                      exact absurd (show badCalibImage env lp by
                        rw [hp']; exact hbad) hb1
                    · injection hp with hp'
                      exact absurd (show badCalibImage env up by
                        rw [hp']; exact hbad) hb2
                  · exact absurd h1 hm2
  · rw [if_neg h1]
    by_cases h2 : cfg.calib_mode = "Manual"
    · rw [if_pos h2]
      cases hl : cfg.lower_ratio with
      | none =>
        cases hu : cfg.upper_ratio with
        | none => exact ⟨fun _ => Or.inl ⟨h2, Or.inl rfl⟩, fun _ => rfl⟩
        | some uv => exact ⟨fun _ => Or.inl ⟨h2, Or.inl rfl⟩, fun _ => rfl⟩
      | some lv =>
        cases hu : cfg.upper_ratio with
        | none => exact ⟨fun _ => Or.inl ⟨h2, Or.inr rfl⟩, fun _ => rfl⟩
        | some uv =>
          constructor
          · intro hcontra
            simp [isErr] at hcontra
          · rintro (⟨_, hor⟩ | ⟨hm, _⟩ | ⟨hm1, _⟩)
            · rcases hor with h | h <;> cases h
            · exact absurd hm h1
            · exact absurd h2 hm1
    · rw [if_neg h2]
      exact ⟨fun _ => Or.inr (Or.inr ⟨h2, h1⟩), fun _ => rfl⟩

/-- C3: calibration resolution fails fatally exactly when the mode is Manual
with a missing manual ratio, the mode is FromImages with a missing path, an
unopenable calibration image or a non-32-bit one, or the mode is anything
else; and in every such case the run stops with the startup and calibration
events only — no progress, no save, and no file opened other than the two
calibration images, so no batch file is processed. -/
theorem calibration_gate (env : Env) (cfg : Config) :
    (isErr (resolveCalibration env cfg).2 = true ↔ calibFails env cfg)
    ∧ ∀ e : RunError, (resolveCalibration env cfg).2 = Except.error e →
        mainScript env cfg =
          ⟨[Event.log "\\Clear", Event.log "Script starting"] ++
            (resolveCalibration env cfg).1, some e⟩
        ∧ ∀ ev ∈ (mainScript env cfg).events,
            (∀ i n, ev ≠ Event.progress i n)
            ∧ (∀ p im, ev ≠ Event.save p im)
            ∧ (∀ p, ev = Event.openFile p →
                cfg.lower_image = some p ∨ cfg.upper_image = some p) := by
  refine ⟨resolveCalibration_isErr_iff env cfg, ?_⟩
  intro e he
  have hms := mainScript_calib_error env cfg e he
  refine ⟨hms, ?_⟩
  intro ev hev
  rw [hms] at hev
  simp at hev
  rcases hev with h | h | h
  · subst h
    exact ⟨fun i n => by simp, fun p im => by simp, fun p hp => by simp at hp⟩
  · subst h
    exact ⟨fun i n => by simp, fun p im => by simp, fun p hp => by simp at hp⟩
  · rcases resolveCalibration_events_shape env cfg ev h with ⟨p, hp, hor⟩ | ⟨m, hm, _⟩
    · subst hp
      refine ⟨fun i n => by simp, fun q im => by simp, fun q hq => ?_⟩
      injection hq with hq'
      exact hq' ▸ hor
    · subst hm
      exact ⟨fun i n => by simp, fun p im => by simp, fun p hp => by simp at hp⟩

/-- A manual-mode configuration with the lower ratio missing. -/
def cfgManualBad : Config :=
  { input_dir := "/in", output_dir := "/out", extension_ratio := "tif",
    calib_mode := "Manual", lower_ratio := none, upper_ratio := some 200,
    lower_image := none, upper_image := none,
    B3 := 0, B2 := 0, B1 := 1, B0 := 0,
    lut_method := "Green Fire Blue", pH_min := 5, pH_max := 7 }

/-- Witness for C3: with the lower manual ratio missing, the run fails with
the configuration error after only the startup and error logs. -/
theorem calibration_gate_witness :
    isErr (resolveCalibration envEmpty cfgManualBad).2 = true
    ∧ mainScript envEmpty cfgManualBad =
        ⟨[Event.log "\\Clear", Event.log "Script starting",
          Event.log "Error: Both manual calibration values must be entered."],
         some (RunError.configError
           "Manual calibration mode requires both lower and upper values.")⟩ := by
  have h := calibration_gate envEmpty cfgManualBad
  have he : (resolveCalibration envEmpty cfgManualBad).2 =
      Except.error (RunError.configError
        "Manual calibration mode requires both lower and upper values.") := rfl
  refine ⟨h.1.mpr (Or.inl ⟨rfl, Or.inl rfl⟩), ?_⟩
  rw [(h.2 _ he).1]
  rfl

/-- C5: a fully processed file is saved as a new image titled
`"pH_" + original title` at `outputDir/title`; a failed save is not caught —
the iteration ends with the uncaught `PersistError`, the batch loop stops
before any remaining file, and the completion message is never logged. -/
theorem save_failure_uncaught :
    (∀ (env : Env) (cfg : Config) (lower upper : ℚ) (lut : String)
        (i total : ℕ) (file : String) (img pH : Image),
        openImage env file = some img → img.bitDepth = 32 →
        process_image img lower upper cfg.B3 cfg.B2 cfg.B1 cfg.B0 = some pH →
        pH.title = "pH_" ++ img.title
        ∧ (env.saveOk (pathJoin cfg.output_dir pH.title) = true →
            processFile env cfg lower upper lut i total file =
              ([Event.progress i total, Event.openFile file] ++
                (resolveLut env lut).1 ++
                [Event.save (pathJoin cfg.output_dir pH.title) pH],
               (resolveLut env lut).2, none))
        ∧ (env.saveOk (pathJoin cfg.output_dir pH.title) = false →
            processFile env cfg lower upper lut i total file =
              ([Event.progress i total, Event.openFile file] ++
                (resolveLut env lut).1,
               (resolveLut env lut).2,
               some (RunError.persistError (pathJoin cfg.output_dir pH.title)))))
    ∧ (∀ (env : Env) (cfg : Config) (lower upper : ℚ) (lut : String)
        (i total : ℕ) (file : String) (rest : List String) (evs : List Event)
        (lut2 : String) (e : RunError),
        processFile env cfg lower upper lut i total file = (evs, lut2, some e) →
        runBatch env cfg lower upper lut i total (file :: rest) = (evs, some e))
    ∧ (∀ (env : Env) (cfg : Config), (mainScript env cfg).error ≠ none →
        Event.log "Script finished !" ∉ (mainScript env cfg).events) := by
  refine ⟨?_, ?_, ?_⟩
  · intro env cfg lower upper lut i total file img pH hopen hbit hproc
    have htitle := process_image_title img lower upper cfg.B3 cfg.B2 cfg.B1 cfg.B0 pH hproc
    refine ⟨htitle.1, fun hs => ?_, fun hs => ?_⟩
    · simp [processFile, hopen, hbit, hproc, hs]
    · simp [processFile, hopen, hbit, hproc, hs]
  · intro env cfg lower upper lut i total file rest evs lut2 e hpf
    simp [runBatch, hpf]
  · exact fun env cfg h => mainScript_finished_not_logged env cfg h

/-- The one-pixel 32-bit buffer holding the sample 150, and the images built
from it in the concrete scenarios. -/
def buf150 : ImageBuffer := ⟨1, 1, [[FVal.num 150]]⟩

/-- The valid 32-bit batch file of the scenarios, as `IJ.openImage` returns it. -/
def imgC : Image := ⟨"C.tif", 32, buf150⟩

/-- The pH image `process_image` produces from `imgC` with bounds 100, 200 and
coefficients (0, 0, 1, 0): the single sample normalizes to 1/2. -/
def pHC : Image := ⟨"pH_C.tif", 32, ⟨1, 1, [[FVal.num (1 / 2)]]⟩⟩

/-- Concrete evaluation of the transform on `imgC`. -/
theorem process_image_imgC : process_image imgC 100 200 0 0 1 0 = some pHC := by
  rw [show imgC = ⟨"C.tif", 32, buf150⟩ from rfl,
    process_image_eq_map ⟨"C.tif", 32, buf150⟩ 100 200 0 0 1 0 (by norm_num)]
  simp [buf150, pHC, pixelSpec, convert_to_pH, min_def, max_def]
  norm_num

/-- An environment holding only the valid image `/in/C.tif` whose saves all
fail. -/
def envSaveFail : Env :=
  { images := fun p => if p = "/in/C.tif" then some (32, buf150) else none
    lutCatalog := fun _ => true
    walk := fun d => if d = "/in" then [("/in", ["C.tif"])] else []
    saveOk := fun _ => false }

/-- A well-formed manual-mode configuration used by the concrete scenarios:
bounds 100 and 200, coefficients (0, 0, 1, 0). -/
def cfgDemo : Config :=
  { input_dir := "/in", output_dir := "/out", extension_ratio := "tif",
    calib_mode := "Manual", lower_ratio := some 100, upper_ratio := some 200,
    lower_image := none, upper_image := none,
    B3 := 0, B2 := 0, B1 := 1, B0 := 0,
    lut_method := "Green Fire Blue", pH_min := 5, pH_max := 7 }

/-- Witness for C5: on `/in/C.tif` with failing saves, the iteration ends in
the uncaught `PersistError`; and an aborted run never logs completion. -/
theorem save_failure_uncaught_witness :
    processFile envSaveFail cfgDemo 100 200 "Green Fire Blue" 1 1 "/in/C.tif" =
      ([Event.progress 1 1, Event.openFile "/in/C.tif"] ++
        (resolveLut envSaveFail "Green Fire Blue").1,
       (resolveLut envSaveFail "Green Fire Blue").2,
       some (RunError.persistError (pathJoin cfgDemo.output_dir pHC.title)))
    ∧ Event.log "Script finished !" ∉ (mainScript envEmpty cfgManualBad).events := by
  constructor
  · exact (save_failure_uncaught.1 envSaveFail cfgDemo 100 200 "Green Fire Blue"
      1 1 "/in/C.tif" imgC pHC rfl rfl process_image_imgC).2.2 rfl
  · exact save_failure_uncaught.2.2 envEmpty cfgManualBad
      (by rw [show (mainScript envEmpty cfgManualBad).error =
        some (RunError.configError
          "Manual calibration mode requires both lower and upper values.") from rfl]
          ; simp)

/-- Every batch iteration's trace begins with its progress report, then the
open of its file: the progress bar runs before the file is touched. -/
theorem processFile_head (env : Env) (cfg : Config) (lower upper : ℚ)
    (lut : String) (i total : ℕ) (file : String) :
    ∃ rest : List Event,
      (processFile env cfg lower upper lut i total file).1 =
        Event.progress i total :: Event.openFile file :: rest := by
  cases ho : openImage env file with
  | none =>
    exact ⟨[Event.log ("Info: Could not open image: " ++ basename file)],
      by simp [processFile, ho]⟩
  | some img =>
    by_cases hb : img.bitDepth = 32
    · cases hp : process_image img lower upper cfg.B3 cfg.B2 cfg.B1 cfg.B0 with
      | none => exact ⟨[], by simp [processFile, ho, hb, hp]⟩
      | some pH =>
        cases hs : env.saveOk (pathJoin cfg.output_dir pH.title) with
        | true =>
          exact ⟨(resolveLut env lut).1 ++
            [Event.save (pathJoin cfg.output_dir pH.title) pH],
            by simp [processFile, ho, hb, hp, hs]⟩
        | false =>
          exact ⟨(resolveLut env lut).1, by simp [processFile, ho, hb, hp, hs]⟩
    · exact ⟨[Event.log ("Info: Image is not 32-bit: " ++ basename file)],
        by simp [processFile, ho, hb]⟩

/-- In a batch run that ends without a fatal error, a progress report is
emitted for every attempted file. -/
theorem runBatch_progress (env : Env) (cfg : Config) (lower upper : ℚ) :
    ∀ (files : List String) (lut : String) (i total : ℕ),
      (runBatch env cfg lower upper lut i total files).2 = none →
      ∀ j, j < files.length →
        Event.progress (i + j) total ∈
          (runBatch env cfg lower upper lut i total files).1 := by
  intro files
  induction files with
  | nil => intro lut i total h j hj; simp at hj
  | cons f rest ih =>
    intro lut i total h j hj
    cases hpf : processFile env cfg lower upper lut i total f with
    | mk evs lr =>
      obtain ⟨lut2, err⟩ := lr
      cases err with
      | some e => rw [runBatch, hpf] at h; simp at h
      | none =>
        rw [runBatch, hpf] at h ⊢
        simp only [] at h ⊢
        cases j with
        | zero =>
          obtain ⟨r, hr⟩ := processFile_head env cfg lower upper lut i total f
          rw [hpf] at hr
          simp only [] at hr
          simp [hr]
        | succ k =>
          have hj' : k < rest.length := by simpa using hj
          have hmem := ih lut2 (i + 1) total h k hj'
          have harith : i + 1 + k = i + (k + 1) := by omega
          rw [harith] at hmem
          simp [hmem]

/-- C9 amended: the progress event (i, n) is reported at the start of file i's
iteration — before that file is opened — rather than after its processing
completes; in a run with no fatal error one is emitted for every i from
1 to n. -/
theorem progress_before_each_file :
    (∀ (env : Env) (cfg : Config) (lower upper : ℚ) (lut : String)
        (i total : ℕ) (file : String),
        ∃ rest : List Event,
          (processFile env cfg lower upper lut i total file).1 =
            Event.progress i total :: Event.openFile file :: rest)
    ∧ (∀ (env : Env) (cfg : Config), (mainScript env cfg).error = none →
        ∀ i, 1 ≤ i → i ≤ (theFiles env cfg).length →
          Event.progress i (theFiles env cfg).length ∈
            (mainScript env cfg).events) := by
  refine ⟨processFile_head, ?_⟩
  intro env cfg h i h1 h2
  unfold mainScript at h ⊢
  cases hrc : resolveCalibration env cfg with
  | mk evs r =>
    rw [hrc] at h
    cases r with
    | error e => simp at h
    | ok bounds =>
      simp only [] at h ⊢
      cases hrb : runBatch env cfg bounds.1 bounds.2 cfg.lut_method 1
          (theFiles env cfg).length (theFiles env cfg) with
      | mk evs2 r2 =>
        rw [hrb] at h
        cases r2 with
        | some e => simp at h
        | none =>
          have hr2 : (runBatch env cfg bounds.1 bounds.2 cfg.lut_method 1
              (theFiles env cfg).length (theFiles env cfg)).2 = none := by
            rw [hrb]
          have hmem := runBatch_progress env cfg bounds.1 bounds.2
            (theFiles env cfg) cfg.lut_method 1 (theFiles env cfg).length hr2
            (i - 1) (by omega)
          have harith : 1 + (i - 1) = i := by omega
          rw [harith, hrb] at hmem
          simp [hmem]

/-- Witness for the amended C9: a concrete iteration's trace begins with the
progress report and the file open. -/
theorem progress_before_each_file_witness :
    ∃ rest : List Event,
      (processFile envEmpty cfgDemo 100 200 "Green Fire Blue" 1 1
        "/in/C.tif").1 =
        Event.progress 1 1 :: Event.openFile "/in/C.tif" :: rest :=
  progress_before_each_file.1 envEmpty cfgDemo 100 200 "Green Fire Blue" 1 1
    "/in/C.tif"

/-- A one-file environment whose single image is valid 32-bit and whose saves
succeed. -/
def envC9 : Env :=
  { images := fun p => if p = "/in/C.tif" then some (32, buf150) else none
    lutCatalog := fun _ => true
    walk := fun d => if d = "/in" then [("/in", ["C.tif"])] else []
    saveOk := fun _ => true }

/-- Concrete evaluation of the single successful batch iteration of `envC9`. -/
theorem processFile_envC9 :
    processFile envC9 cfgDemo 100 200 "Green Fire Blue" 1 1 "/in/C.tif" =
      ([Event.progress 1 1, Event.openFile "/in/C.tif",
        Event.save (pathJoin "/out" "pH_C.tif") pHC],
       "Green Fire Blue", none) := by
  have hopen : openImage envC9 "/in/C.tif" = some imgC := rfl
  have hbit : imgC.bitDepth = 32 := rfl
  have hproc : process_image imgC 100 200 cfgDemo.B3 cfgDemo.B2 cfgDemo.B1
      cfgDemo.B0 = some pHC := process_image_imgC
  have hlut : resolveLut envC9 "Green Fire Blue" = ([], "Green Fire Blue") := rfl
  have hsave : envC9.saveOk (pathJoin "/out" "pH_C.tif") = true := rfl
  have hpath : pathJoin cfgDemo.output_dir pHC.title = pathJoin "/out" "pH_C.tif" := rfl
  simp [processFile, hopen, hbit, hproc, hlut, hsave, hpath]

/-- Concrete evaluation of the whole run of `envC9`. -/
theorem mainScript_envC9 :
    mainScript envC9 cfgDemo =
      ⟨[Event.log "\\Clear", Event.log "Script starting", Event.progress 1 1,
        Event.openFile "/in/C.tif", Event.save (pathJoin "/out" "pH_C.tif") pHC,
        Event.log "Script finished !"], none⟩ := by
  have hcal : resolveCalibration envC9 cfgDemo = ([], Except.ok (100, 200)) := rfl
  have hfiles : theFiles envC9 cfgDemo = ["/in/C.tif"] := rfl
  have hlm : cfgDemo.lut_method = "Green Fire Blue" := rfl
  simp [mainScript, hcal, hfiles, hlm, runBatch,
    show pathJoin "/in" "C.tif" = "/in/C.tif" from rfl, processFile_envC9]

/-- C9 counterexample: in the concrete one-file run the progress event (1, 1)
is emitted before the save of file 1 — there is no position of a save event
strictly before a position of the progress event, refuting "reported after
each file is processed". -/
theorem progress_after_processing_counterexample :
    mainScript envC9 cfgDemo =
      ⟨[Event.log "\\Clear", Event.log "Script starting", Event.progress 1 1,
        Event.openFile "/in/C.tif", Event.save (pathJoin "/out" "pH_C.tif") pHC,
        Event.log "Script finished !"], none⟩
    ∧ ¬∃ j k : ℕ, j < k
        ∧ (mainScript envC9 cfgDemo).events.get? j =
            some (Event.save (pathJoin "/out" "pH_C.tif") pHC)
        ∧ (mainScript envC9 cfgDemo).events.get? k =
            some (Event.progress 1 1) := by
  refine ⟨mainScript_envC9, ?_⟩
  rintro ⟨j, k, hjk, hj, hk⟩
  rw [mainScript_envC9] at hj hk
  have hk2 : k = 2 := by
    rcases k with _ | _ | _ | _ | _ | _ | k7
    · simp at hk
    · simp at hk
    · rfl
    · simp at hk
    · simp at hk
    · simp at hk
    · simp at hk
  have hj4 : j = 4 := by
    rcases j with _ | _ | _ | _ | _ | _ | j7
    · simp at hj
    · simp at hj
    · simp at hj
    · simp at hj
    · rfl
    · simp at hj
    · simp at hj
  omega

/-- The one-pixel buffer of the wrong-bit-depth scenario file A. -/
def bufA : ImageBuffer := ⟨1, 1, [[FVal.num 3]]⟩

/-- The three-file batch environment of the spec's scenario: A decodes at
16 bit, B cannot be opened, C is a valid 32-bit image; saves succeed. -/
def envC4 : Env :=
  { images := fun p =>
      if p = "/in/A.tif" then some (16, bufA)
      else if p = "/in/C.tif" then some (32, buf150)
      else none
    lutCatalog := fun _ => true
    walk := fun d => if d = "/in" then [("/in", ["A.tif", "B.tif", "C.tif"])] else []
    saveOk := fun _ => true }

/-- Scenario file A: wrong bit depth, logged and skipped. -/
theorem processFile_envC4_A :
    processFile envC4 cfgDemo 100 200 "Green Fire Blue" 1 3 "/in/A.tif" =
      ([Event.progress 1 3, Event.openFile "/in/A.tif",
        Event.log "Info: Image is not 32-bit: A.tif"],
       "Green Fire Blue", none) := rfl

/-- Scenario file B: cannot be opened, logged and skipped. -/
theorem processFile_envC4_B :
    processFile envC4 cfgDemo 100 200 "Green Fire Blue" 2 3 "/in/B.tif" =
      ([Event.progress 2 3, Event.openFile "/in/B.tif",
        Event.log "Info: Could not open image: B.tif"],
       "Green Fire Blue", none) := rfl

/-- Scenario file C: processed and saved. -/
theorem processFile_envC4_C :
    processFile envC4 cfgDemo 100 200 "Green Fire Blue" 3 3 "/in/C.tif" =
      ([Event.progress 3 3, Event.openFile "/in/C.tif",
        Event.save (pathJoin "/out" "pH_C.tif") pHC],
       "Green Fire Blue", none) := by
  have hopen : openImage envC4 "/in/C.tif" = some imgC := rfl
  have hbit : imgC.bitDepth = 32 := rfl
  have hproc : process_image imgC 100 200 cfgDemo.B3 cfgDemo.B2 cfgDemo.B1
      cfgDemo.B0 = some pHC := process_image_imgC
  have hlut : resolveLut envC4 "Green Fire Blue" = ([], "Green Fire Blue") := rfl
  have hsave : envC4.saveOk (pathJoin "/out" "pH_C.tif") = true := rfl
  have hpath : pathJoin cfgDemo.output_dir pHC.title = pathJoin "/out" "pH_C.tif" := rfl
  simp [processFile, hopen, hbit, hproc, hlut, hsave, hpath]

/-- Concrete evaluation of the whole three-file run. -/
theorem mainScript_envC4 :
    mainScript envC4 cfgDemo =
      ⟨[Event.log "\\Clear", Event.log "Script starting",
        Event.progress 1 3, Event.openFile "/in/A.tif",
        Event.log "Info: Image is not 32-bit: A.tif",
        Event.progress 2 3, Event.openFile "/in/B.tif",
        Event.log "Info: Could not open image: B.tif",
        Event.progress 3 3, Event.openFile "/in/C.tif",
        Event.save (pathJoin "/out" "pH_C.tif") pHC,
        Event.log "Script finished !"], none⟩ := by
  have hcal : resolveCalibration envC4 cfgDemo = ([], Except.ok (100, 200)) := rfl
  have hlm : cfgDemo.lut_method = "Green Fire Blue" := rfl
  simp [mainScript, hcal, hlm, runBatch,
    show theFiles envC4 cfgDemo = ["/in/A.tif", "/in/B.tif", "/in/C.tif"] from rfl,
    show pathJoin "/in" "A.tif" = "/in/A.tif" from rfl,
    show pathJoin "/in" "B.tif" = "/in/B.tif" from rfl,
    show pathJoin "/in" "C.tif" = "/in/C.tif" from rfl,
    processFile_envC4_A, processFile_envC4_B, processFile_envC4_C]

/-- C4: for the discovered files A (wrong bit depth), B (unopenable) and C
(valid 32-bit), the run logs and skips A and B, continues past each failure,
produces exactly one output — saved at `"pH_" + C's title` — and its trace
counts processed = 1 and skipped = 2, completing without error. -/
theorem batch_scenario :
    savedPaths (mainScript envC4 cfgDemo).events = [pathJoin "/out" "pH_C.tif"]
    ∧ processedCount (mainScript envC4 cfgDemo).events = 1
    ∧ skippedCount (mainScript envC4 cfgDemo).events = 2
    ∧ (mainScript envC4 cfgDemo).error = none
    ∧ Event.log "Info: Image is not 32-bit: A.tif" ∈ (mainScript envC4 cfgDemo).events
    ∧ Event.log "Info: Could not open image: B.tif" ∈ (mainScript envC4 cfgDemo).events
    ∧ Event.log "Script finished !" ∈ (mainScript envC4 cfgDemo).events := by
  rw [mainScript_envC4]
  exact ⟨rfl, rfl, rfl, rfl, by decide, by decide, by decide⟩

/-- `IJ.openImage` titles the decoded image with the file's base name. -/
theorem openImage_title (env : Env) (file : String) (img : Image)
    (h : openImage env file = some img) : img.title = basename file := by
  unfold openImage at h
  cases hi : env.images file with
  | none => rw [hi] at h; cases h
  | some db =>
    rw [hi] at h
    injection h with h'
    rw [← h']

/-- A trace whose replay from an empty state ends at `some img` ends there
from any starting state: the last save wins. -/
theorem foldl_saveStep_of_some (path : String) (img : Image) :
    ∀ evs : List Event, evs.foldl (saveStep path) none = some img →
      ∀ acc : Option Image, evs.foldl (saveStep path) acc = some img := by
  intro evs
  induction evs with
  | nil => intro h acc; cases h
  | cons e t ih =>
    intro h acc
    cases e with
    | save p im =>
      by_cases hp : p = path
      · simp only [List.foldl_cons, saveStep, if_pos hp] at h ⊢
        exact h
      · simp only [List.foldl_cons, saveStep, if_neg hp] at h ⊢
        exact ih h acc
    | log m =>
      simp only [List.foldl_cons, saveStep] at h ⊢
      exact ih h acc
    | progress i n =>
      simp only [List.foldl_cons, saveStep] at h ⊢
      exact ih h acc
    | openFile p =>
      simp only [List.foldl_cons, saveStep] at h ⊢
      exact ih h acc

/-- Earlier events cannot undo a later save: appending a prefix trace keeps
the last save of the suffix. -/
theorem lastSave_append (evs1 evs2 : List Event) (path : String) (img : Image)
    (h : lastSave evs2 path = some img) :
    lastSave (evs1 ++ evs2) path = some img := by
  unfold lastSave at h ⊢
  rw [List.foldl_append]
  exact foldl_saveStep_of_some path img evs2 h _

/-- C10: the output path of a processed file is
`outputDir/("pH_" + basename file)` — it depends only on the file's base
name, not its subdirectory; two discovered files with the same base name are
saved to the identical path, and the later save wins in the output
directory. -/
theorem output_path_depends_on_basename :
    (∀ (env : Env) (cfg : Config) (lower upper : ℚ) (lut : String)
        (i total : ℕ) (file : String) (img pH : Image),
        openImage env file = some img → img.bitDepth = 32 →
        process_image img lower upper cfg.B3 cfg.B2 cfg.B1 cfg.B0 = some pH →
        env.saveOk (pathJoin cfg.output_dir ("pH_" ++ basename file)) = true →
        Event.save (pathJoin cfg.output_dir ("pH_" ++ basename file)) pH ∈
          (processFile env cfg lower upper lut i total file).1)
    ∧ (∀ dir f1 f2 : String, basename f1 = basename f2 →
        pathJoin dir ("pH_" ++ basename f1) = pathJoin dir ("pH_" ++ basename f2))
    ∧ (∀ (evs1 evs2 : List Event) (path : String) (img : Image),
        lastSave evs2 path = some img →
        lastSave (evs1 ++ evs2) path = some img) := by
  refine ⟨?_, ?_, lastSave_append⟩
  · intro env cfg lower upper lut i total file img pH hopen hbit hproc hsave
    have hpH : pH.title = "pH_" ++ basename file := by
      rw [(process_image_title img lower upper cfg.B3 cfg.B2 cfg.B1 cfg.B0 pH
        hproc).1, openImage_title env file img hopen]
    rw [← hpH] at hsave ⊢
    simp [processFile, hopen, hbit, hproc, hsave]
  · intro dir f1 f2 h
    rw [h]

/-- Witness for C10: the concrete save lands at
`/out/("pH_" + basename)`; two paths with the same base name in different
directories share it; the later of two saves to one path wins. -/
theorem output_path_depends_on_basename_witness :
    Event.save (pathJoin "/out" ("pH_" ++ basename "/in/C.tif")) pHC ∈
      (processFile envC9 cfgDemo 100 200 "Green Fire Blue" 1 1 "/in/C.tif").1
    ∧ basename "/in/d1/s.tif" = basename "/in/d2/s.tif"
    ∧ lastSave ([Event.save (pathJoin "/out" "pH_C.tif") imgC] ++
        [Event.save (pathJoin "/out" "pH_C.tif") pHC])
        (pathJoin "/out" "pH_C.tif") = some pHC := by
  refine ⟨?_, rfl, ?_⟩
  · exact output_path_depends_on_basename.1 envC9 cfgDemo 100 200
      "Green Fire Blue" 1 1 "/in/C.tif" imgC pHC rfl rfl process_image_imgC rfl
  · exact output_path_depends_on_basename.2.2 [Event.save (pathJoin "/out" "pH_C.tif") imgC]
      [Event.save (pathJoin "/out" "pH_C.tif") pHC] (pathJoin "/out" "pH_C.tif") pHC rfl

/-- C6: the discovery filter is broken for upper-case filter strings — the
file name is lowercased but the pattern keeps the filter's original case (the
lowercased `filteringStrings` is computed and never used), so with filter
"TIF" the file "image.tif" is not selected although its name ends with the
filter case-insensitively; with the already-lower-case filter "tif" it is. -/
theorem getFileList_uppercase_filter_eval :
    getFileList [("/in", ["image.tif"])] ["TIF"] = []
    ∧ getFileList [("/in", ["image.tif"])] ["tif"] = [pathJoin "/in" "image.tif"]
    ∧ fnmatch (strToLower "image.tif") ("*" ++ strToLower "TIF") = true
    ∧ fnmatch (strToLower "image.tif") ("*" ++ "TIF") = false :=
  ⟨rfl, rfl, rfl, rfl⟩
